import Mathlib

/-!
Verification of the uncle-validation / fork-management core and the RPC layer
of the `ckb` repository.

The repository ships two source files:
* `src/rpc/src/lib.rs` — the JSON-RPC handlers (`send_transaction`, `get_block`,
  `get_transaction`, `get_block_hash`, `get_tip_header`); these are embedded
  directly below (second half of this file).
* `src/test/src/specs/mining/uncle.rs` — the integration tests for the uncle
  rule (`UncleInheritFromForkBlock`, `UncleInheritFromForkUncle`,
  `PackUnclesIntoEpochStarting`).

The consensus core itself (uncle validator, chain/fork manager, template
assembler) is not part of the source tree — only its tests are.  It is
therefore modelled from the specification (spec.md §3, §4.3, §4.4, §7),
with one adjustment that the in-repo tests force: `uncle.rs` asserts that a
candidate whose parent is neither an ancestor of the context nor a
previously-embedded uncle is rejected with kind `DescendantLimit`
(`uncle.rs:51`, `uncle.rs:119`), so the lineage check and the lookback check
are realised as a single windowed-connectivity check whose failure kind is
`DescendantLimit`; the spec's `LineageMismatch` kind is declared but never
produced, matching the observable behaviour pinned by the tests.
-/

deriving instance DecidableEq for Except

/-- Modelled from the spec: §3 Header — immutable record with `number`,
`parent_hash`, a content-derived `hash`, `timestamp`, and the position of the
header inside its epoch (`epoch_index`; a header is epoch-starting iff it is
0).  Digests are abstracted as natural numbers; the work/target field plays no
role in any claim and is omitted. -/
structure Header where
  hash : Nat
  parent_hash : Nat
  number : Nat
  timestamp : Nat
  epoch_index : Nat
  deriving DecidableEq, Repr

/-- Modelled from the spec: §3 Block — a header plus its ordered uncle
references (each an embedded header).  Transactions play no role in the uncle
claims and are omitted. -/
structure Block where
  header : Header
  uncles : List Header
  deriving DecidableEq, Repr

/-- Modelled from the spec: §7 — the closed enumeration of uncle-rejection
kinds.  `LineageMismatch` is listed by the spec but, per the in-repo tests, is
never produced by validation (a failed lineage check surfaces as
`DescendantLimit`). -/
inductive UncleRejection where
  | AlreadyAncestor
  | LineageMismatch
  | DescendantLimit
  | AlreadyUsed
  | EpochStartWithUncles
  | TooManyUncles
  | DuplicateUncleInBlock
  deriving DecidableEq, Repr

/-- Modelled from the spec: §7 — block-submission errors. -/
inductive ChainError where
  | UnknownParent
  | InvalidUncle : UncleRejection → ChainError
  | Invalid
  deriving DecidableEq, Repr

/-- Modelled from the spec: §3 Chain state — the canonical path (genesis
first) plus the known fork blocks that are not on it. -/
structure ChainState where
  canonical : List Block
  side : List Block
  deriving DecidableEq, Repr

/-- Modelled from the spec: §4.1 — `is_ancestor`: is the header with digest
`h` an ancestor-or-self of the context, whose ancestry is `chain`. -/
def isAncestor (h : Nat) (chain : List Block) : Bool :=
  chain.any (fun b => b.header.hash == h)

/-- Modelled from the spec: §4.3 step 3 — the last `lookback` blocks of the
context's ancestry, the window within which an uncle's lineage must
reconnect. -/
def recentBlocks (chain : List Block) (lookback : Nat) : List Block :=
  chain.drop (chain.length - lookback)

/-- Modelled from the spec: §4.3 steps 2–3 — the candidate's parent must be
the hash of a block in the lookback window, or of an uncle embedded by a block
in the lookback window.  The tests (`uncle.rs:51`, `uncle.rs:119`) pin the
failure kind of this combined check to `DescendantLimit`. -/
def uncleConnects (candidate : Header) (chain : List Block) (lookback : Nat) : Bool :=
  (recentBlocks chain lookback).any (fun b =>
    b.header.hash == candidate.parent_hash
      || b.uncles.any (fun u => u.hash == candidate.parent_hash))

/-- Modelled from the spec: §3 Uncle-usage ledger — every hash consumed as an
uncle anywhere along the given ancestry. -/
def usedUncles : List Block → List Nat
  | [] => []
  | b :: rest => b.uncles.map (fun u => u.hash) ++ usedUncles rest

/-- Modelled from the spec: §4.3 — the per-candidate decision sequence:
not-an-ancestor, windowed lineage reconnection (kind `DescendantLimit`, see
`uncleConnects`), no prior use. -/
def validate_uncle (candidate context : Header) (chain : List Block) (lookback : Nat) :
    Except UncleRejection Unit :=
  if isAncestor candidate.hash chain then Except.error UncleRejection.AlreadyAncestor
  else if !uncleConnects candidate chain lookback then Except.error UncleRejection.DescendantLimit
  else if (usedUncles chain).any (fun h => h == candidate.hash) then
    Except.error UncleRejection.AlreadyUsed
  else Except.ok ()

/-- Modelled from the spec: §4.3 — first rejection among the block's uncle
candidates, in order. -/
def firstUncleError (us : List Header) (context : Header) (chain : List Block) (lookback : Nat) :
    Option UncleRejection :=
  match us with
  | [] => none
  | u :: rest =>
    match validate_uncle u context chain lookback with
    | Except.error r => some r
    | Except.ok _ => firstUncleError rest context chain lookback

/-- Modelled from the spec: §4.3 step 6 — duplicate detection within one
block's uncle list. -/
def hasDup : List Nat → Bool
  | [] => false
  | x :: rest => rest.any (fun y => y == x) || hasDup rest

/-- Modelled from the spec: §4.3 — whole-block uncle validation: the
per-candidate checks (steps 1–4), then the epoch-start exclusion (step 5) and
the count cap / in-block duplicate checks (step 6). -/
def validateBlockUncles (b : Block) (chain : List Block) (lookback maxUncles : Nat) :
    Except UncleRejection Unit :=
  match firstUncleError b.uncles b.header chain lookback with
  | some r => Except.error r
  | none =>
    if b.header.epoch_index == 0 && !b.uncles.isEmpty then
      Except.error UncleRejection.EpochStartWithUncles
    else if maxUncles < b.uncles.length then Except.error UncleRejection.TooManyUncles
    else if hasDup (b.uncles.map (fun u => u.hash)) then
      Except.error UncleRejection.DuplicateUncleInBlock
    else Except.ok ()

/-- Modelled from the spec: §4.4 — is the digest that of a known block
(canonical or fork)? -/
def knownHash (h : Nat) (st : ChainState) : Bool :=
  (st.canonical ++ st.side).any (fun b => b.header.hash == h)

/-- Modelled from the spec: §4.4 — `submit_block`: verify the parent is known
(else `UnknownParent`), then verify the block's uncle list against the block
itself as context over the canonical ancestry. -/
def submit_block (lookback maxUncles : Nat) (st : ChainState) (b : Block) :
    Except ChainError Unit :=
  if knownHash b.header.parent_hash st then
    match validateBlockUncles b st.canonical lookback maxUncles with
    | Except.error r => Except.error (ChainError.InvalidUncle r)
    | Except.ok _ => Except.ok ()
  else Except.error ChainError.UnknownParent

/-- Modelled from the spec: §4.3 / §2 — does the validator accept the
candidate for this context?  Used by template assembly, which silently drops
ineligible candidates. -/
def acceptsUncle (candidate context : Header) (chain : List Block) (lookback : Nat) : Bool :=
  match validate_uncle candidate context chain lookback with
  | Except.ok _ => true
  | Except.error _ => false

/-- Modelled from the spec: §2 Block Template Assembler — selects eligible
uncles for a new template; it enforces the epoch-start exclusion (an
epoch-starting context carries zero uncles) and the per-block count cap. -/
def assembleUncles (candidates : List Header) (context : Header) (chain : List Block)
    (lookback maxUncles : Nat) : List Header :=
  if context.epoch_index == 0 then []
  else (candidates.filter (fun u => acceptsUncle u context chain lookback)).take maxUncles

/-- Modelled from the spec: §7 — the printable name of a rejection kind. -/
def UncleRejection.kindName : UncleRejection → String
  | UncleRejection.AlreadyAncestor => "AlreadyAncestor"
  | UncleRejection.LineageMismatch => "LineageMismatch"
  | UncleRejection.DescendantLimit => "DescendantLimit"
  | UncleRejection.AlreadyUsed => "AlreadyUsed"
  | UncleRejection.EpochStartWithUncles => "EpochStartWithUncles"
  | UncleRejection.TooManyUncles => "TooManyUncles"
  | UncleRejection.DuplicateUncleInBlock => "DuplicateUncleInBlock"

/-- Modelled from the spec: §7 — the kind identified by a submission error. -/
def ChainError.kindName : ChainError → String
  | ChainError.UnknownParent => "UnknownParent"
  | ChainError.InvalidUncle r => r.kindName
  | ChainError.Invalid => "Invalid"

/-- Modelled from the spec: §6 — the human-readable message attached to a
submission error; it embeds the specific rejection kind (the test harness
matches on substrings of it, `uncle.rs:51`). -/
def ChainError.message : ChainError → String
  | ChainError.UnknownParent => "SubmitBlock(UnknownParent)"
  | ChainError.InvalidUncle r => "SubmitBlock(InvalidUncles(" ++ r.kindName ++ "))"
  | ChainError.Invalid => "SubmitBlock(Invalid)"

/-- Is `pat` a prefix of `l` (on characters)? -/
def isPrefixChars : List Char → List Char → Bool
  | [], _ => true
  | _ :: _, [] => false
  | a :: as, b :: bs => a == b && isPrefixChars as bs

/-- Does `pat` occur as a contiguous run inside `l`? -/
def containsRun (pat : List Char) : List Char → Bool
  | [] => isPrefixChars pat []
  | c :: rest => isPrefixChars pat (c :: rest) || containsRun pat rest

/-- Does the string `s` contain `pat` as a substring? -/
def strContains (s pat : String) : Bool :=
  containsRun pat.toList s.toList

/- ### Concrete scenario material for the uncle claims

The two reorg tests build: an original ("old") chain carrying the uncle's
parent, a longer competing fork that displaces it entirely (the fork shares
only the genesis, so after the reorg every old block is a fork block), and
then a drain phase absorbing the old blocks as uncles.  Digests are assigned
by residue class modulo 4 so the families never collide:
fork/absorb blocks get `4i+3`, old blocks get `4i+2`, the candidate uncle of
scenario A (also the fork-uncle parent of scenario B) gets `1`, and the
fork-uncle child gets `4`. -/

/-- Build a header from digest, parent digest, height and epoch index. -/
def mkHeader (h p n e : Nat) : Header :=
  { hash := h, parent_hash := p, number := n, timestamp := 0, epoch_index := e }

/-- Digest of the fork-chain (and drain) block at height `i`. -/
def forkHash (i : Nat) : Nat := 4 * i + 3

/-- Digest of the old-chain block at height `i`. -/
def oldHash (i : Nat) : Nat := 4 * i + 2

/-- The competing-fork block at height `i` (no uncles). -/
def forkBlock (i : Nat) : Block :=
  { header := mkHeader (forkHash i) (forkHash (i - 1)) i 1, uncles := [] }

/-- The canonical chain after the reorg: `K` fork blocks. -/
def forkChain (K : Nat) : List Block :=
  (List.range K).map forkBlock

/-- Header of the displaced old-chain block at height `i`. -/
def oldHeader (i : Nat) : Header :=
  mkHeader (oldHash i) (oldHash (i - 1)) i 1

/-- The displaced old-chain blocks at heights `1..H`, now fork blocks. -/
def oldSide (H : Nat) : List Block :=
  (List.range H).map (fun i => { header := oldHeader (i + 1), uncles := [] })

/-- The context header of a block built on the fork tip (height `K`). -/
def tipContext (K : Nat) : Header :=
  mkHeader 0 (forkHash (K - 1)) K 1

/-- Scenario A's candidate `uncle`: branches off the old chain at height
`H-1` (its parent is the old block at height `H-1`), sits at height `H`. -/
def uncleA (H : Nat) : Header :=
  mkHeader 1 (oldHash (H - 1)) H 1

/-- Chain state right after the reorg of scenario A: canonical = fork chain,
old blocks displaced to the side. -/
def stA1 (H K : Nat) : ChainState :=
  { canonical := forkChain K, side := oldSide H }

/-- The block submitted in scenario A step (3): built on the fork tip,
carrying `uncle`. -/
def blockA1 (H K : Nat) : Block :=
  { header := tipContext K, uncles := [uncleA H] }

/-- The `j`-th drain block: height `K+j`, absorbing the old block at height
`j+1` as an uncle. -/
def absorbBlock (K j : Nat) : Block :=
  { header := mkHeader (forkHash (K + j)) (forkHash (K + j - 1)) (K + j) 1,
    uncles := [oldHeader (j + 1)] }

/-- The drain phase: `H` blocks absorbing the old blocks `1..H` in height
order. -/
def absorbChain (K H : Nat) : List Block :=
  (List.range H).map (absorbBlock K)

/-- Canonical chain of scenario A after the backlog is drained. -/
def drainedChainA (H K : Nat) : List Block :=
  forkChain K ++ absorbChain K H

/-- Chain state of scenario A after the backlog is drained. -/
def stA2 (H K : Nat) : ChainState :=
  { canonical := drainedChainA H K, side := [] }

/-- Context header on the drained tip (height `K+H`). -/
def tipContextA2 (H K : Nat) : Header :=
  mkHeader 0 (forkHash (K + H - 1)) (K + H) 1

/-- The block re-submitted in scenario A step (4), carrying the same
`uncle`. -/
def blockA2 (H K : Nat) : Block :=
  { header := tipContextA2 H K, uncles := [uncleA H] }

/- ### Claim C3: scenario B (uncle inherited from a fork-uncle) -/

/-- Scenario B's `uncle_child`: its parent is `uncleA H` (the fork-uncle
`uncle_parent`, digest 1); its own digest 4 collides with nothing (every
block digest is ≡ 3 mod 4, every old-chain digest ≡ 2 mod 4). -/
def uncleChildC (H : Nat) : Header :=
  mkHeader 4 (uncleA H).hash (H + 1) 1

/-- A side-fork block embedding `uncle_parent` as an uncle — the embedding
that, per the claim, must NOT count for clause (b) of the uncle rule. -/
def sideEmbedBlock (H : Nat) : Block :=
  { header := mkHeader (oldHash (H + 1)) (oldHash H) (H + 1) 1, uncles := [uncleA H] }

/-- Chain state after the reorg of scenario B: canonical = fork chain; the
old blocks, `uncle_parent` itself, and the side-fork block embedding
`uncle_parent` as an uncle are all side blocks. -/
def stC1 (H K : Nat) : ChainState :=
  { canonical := forkChain K,
    side := oldSide H ++ [{ header := uncleA H, uncles := [] }, sideEmbedBlock H] }

/-- The block submitted in scenario B step (3): built on the fork tip,
carrying `uncle_child`. -/
def blockC1 (H K : Nat) : Block :=
  { header := tipContext K, uncles := [uncleChildC H] }

/-- The final drain block of scenario B: absorbs `uncle_parent` itself as an
uncle of the canonical chain. -/
def parentAbsorbBlock (H K : Nat) : Block :=
  { header := mkHeader (forkHash (K + H)) (forkHash (K + H - 1)) (K + H) 1,
    uncles := [uncleA H] }

/-- Canonical chain of scenario B after the backlog is drained: the fork
chain, the drain blocks absorbing the old blocks, and last the block
absorbing `uncle_parent`. -/
def drainedChainC (H K : Nat) : List Block :=
  forkChain K ++ (absorbChain K H ++ [parentAbsorbBlock H K])

/-- Chain state of scenario B after the backlog is drained. -/
def stC2 (H K : Nat) : ChainState :=
  { canonical := drainedChainC H K, side := [] }

/-- Context header on the drained tip of scenario B (height `K+H+1`). -/
def tipContextC2 (H K : Nat) : Header :=
  mkHeader 0 (forkHash (K + H)) (K + H + 1) 1

/-- The block re-submitted in scenario B step (4), carrying the same
`uncle_child`. -/
def blockC2 (H K : Nat) : Block :=
  { header := tipContextC2 H K, uncles := [uncleChildC H] }

/- ### Claim C4: epoch-boundary template scenario -/

/-- A plain canonical block at height `i` (digest `i+2`, no uncles); its
epoch index is `i % E` for the fixed epoch length `E`. -/
def simpleBlock (E i : Nat) : Block :=
  { header := mkHeader (i + 2) (i + 1) i (i % E), uncles := [] }

/-- The canonical chain of heights `0 .. n-1` made of `simpleBlock`s. -/
def simpleChain (E n : Nat) : List Block :=
  (List.range n).map (simpleBlock E)

/-- Scenario C's target uncle: submitted at height `n-2` (where
`n = next_epoch_start`), branching off the block at height `n-3`. -/
def uncleB (E n : Nat) : Header :=
  mkHeader 1 (n - 3 + 2) (n - 2) ((n - 2) % E)

/-- The context for the template built right after the uncle submission: the
last height of the epoch, `n-1`. -/
def ctxB1 (E n : Nat) : Header :=
  mkHeader 0 n (n - 1) ((n - 1) % E)

/-- The context for the first template after the epoch boundary: the
epoch-starting height `n = next_epoch_start`. -/
def ctxB2 (E n : Nat) : Header :=
  mkHeader 0 (n + 1) n (n % E)

/- ### RPC layer, embedded from src/rpc/src/lib.rs -/

/-- Transaction value (`core::transaction::Transaction`): the content fields
shown in the RPC example (`version`, `deps`, `inputs`, `outputs`) plus the
attachable `hash` field that `get_block` fills in (lib.rs:86). -/
structure Transaction where
  version : Nat
  deps : List Nat
  inputs : List Nat
  outputs : List Nat
  hash : Option Nat
  deriving DecidableEq, Repr

/-- The content of a transaction — every field except the attachable `hash`
cache.  The content hash `Transaction::hash()` is a pure function of this
(spec §3: a digest is a pure function of the other fields). -/
def Transaction.content (t : Transaction) : Nat × List Nat × List Nat × List Nat :=
  (t.version, t.deps, t.inputs, t.outputs)

/-- Block value (`core::block::Block`) as the RPC layer sees it: header,
transactions, uncles. -/
structure RpcBlock where
  header : Header
  transactions : List Transaction
  uncles : List Header
  deriving DecidableEq, Repr

/-- External pool error (opaque to the RPC layer). -/
structure PoolError where
  code : Nat
  deriving DecidableEq, Repr

/-- RPC-level error type (`jsonrpc_core::Error`); no handler in lib.rs ever
constructs one. -/
inductive RpcError where
  | internalError : String → RpcError
  deriving DecidableEq, Repr

/-- The `ChainClient` operations the RPC handlers consume (`self.chain.block`,
`.get_transaction`, `.block_hash`, `.tip_header`). -/
structure ChainClient where
  block : Nat → Option RpcBlock
  get_transaction : Nat → Option Transaction
  block_hash : Nat → Option Nat
  tip_header : Header

/-- The collaborators of `RpcImpl` (lib.rs:57-61): the chain client, the pool
admission call, the connected peer sessions together with each peer's send
outcome, and the content-hash function `Transaction::hash()`. -/
structure NodeEnv where
  chain : ChainClient
  add_to_memory_pool : Transaction → Except PoolError Unit
  sessions : List Nat
  send_ok : Nat → Bool
  tx_hash : Nat × List Nat × List Nat × List Nat → Nat

/-- Observable outcome of one `send_transaction` call (lib.rs:64-77): the RPC
result, the pool outcome (logged only, lib.rs:66), and the relay attempts —
one per connected session, each paired with its send outcome, which the code
discards with `.ok()` (lib.rs:73). -/
structure SendOutcome where
  result : Except RpcError Nat
  pool_result : Except PoolError Unit
  relay_attempts : List (Nat × Bool)

/-- `RpcImpl::send_transaction` (lib.rs:64-77): submit to the pool (outcome
only logged), compute the content hash, relay the payload to every connected
session discarding per-peer failures, and return `Ok(hash)`. -/
def send_transaction (env : NodeEnv) (tx : Transaction) : SendOutcome :=
  let pool_result := env.add_to_memory_pool tx
  let result := env.tx_hash tx.content
  let relay_attempts := env.sessions.map (fun peer_id => (peer_id, env.send_ok peer_id))
  { result := Except.ok result, pool_result := pool_result, relay_attempts := relay_attempts }

/-- The per-transaction rewrite inside `get_block` (lib.rs:85-88):
`t.hash = Some(t.hash())`. -/
def attachTxHash (txh : Nat × List Nat × List Nat × List Nat → Nat) (t : Transaction) :
    Transaction :=
  { t with hash := some (txh t.content) }

/-- `RpcImpl::get_block` (lib.rs:79-92): look the block up by hash; on a hit
return it with every transaction's `hash` field set to its own content hash;
always `Ok`. -/
def get_block (env : NodeEnv) (hash : Nat) : Except RpcError (Option RpcBlock) :=
  Except.ok ((env.chain.block hash).map (fun block =>
    { block with transactions := block.transactions.map (attachTxHash env.tx_hash) }))

/-- `RpcImpl::get_transaction` (lib.rs:94-96). -/
def get_transaction (env : NodeEnv) (hash : Nat) : Except RpcError (Option Transaction) :=
  Except.ok (env.chain.get_transaction hash)

/-- `RpcImpl::get_block_hash` (lib.rs:98-100). -/
def get_block_hash (env : NodeEnv) (height : Nat) : Except RpcError (Option Nat) :=
  Except.ok (env.chain.block_hash height)

/-- `RpcImpl::get_tip_header` (lib.rs:102-104). -/
def get_tip_header (env : NodeEnv) : Except RpcError Header :=
  Except.ok env.chain.tip_header

/-- Is an RPC result `Ok`? -/
def exceptOk {α : Type} : Except RpcError α → Bool
  | Except.ok _ => true
  | Except.error _ => false

/-- A concrete transaction used by witnesses. -/
def cTx : Transaction :=
  { version := 2, deps := [], inputs := [], outputs := [7], hash := none }

/-- A concrete header used by witnesses. -/
def cHdr : Header := mkHeader 10 9 1 1

/-- A concrete block used by witnesses. -/
def cBlk : RpcBlock := { header := cHdr, transactions := [cTx], uncles := [] }

/-- A concrete chain client: only block 10 at height 1 is known. -/
def cChain : ChainClient :=
  { block := fun h => if h == 10 then some cBlk else none,
    get_transaction := fun _ => none,
    block_hash := fun ht => if ht == 1 then some 10 else none,
    tip_header := cHdr }

/-- A concrete environment whose pool rejects everything and whose peer 2's
sends fail — exercising exactly the ignored-failure paths. -/
def cEnv : NodeEnv :=
  { chain := cChain,
    add_to_memory_pool := fun _ => Except.error { code := 1 },
    sessions := [1, 2, 3],
    send_ok := fun p => !(p == 2),
    tx_hash := fun c => c.1 + 100 }

/- ### Theorems -/

/- ### Helper lemmas about the model -/

theorem hash_mem_usedUncles {chain : List Block} {b : Block} {u : Header}
    (hb : b ∈ chain) (hu : u ∈ b.uncles) : u.hash ∈ usedUncles chain := by
  induction chain with
  | nil => cases hb
  | cons c rest ih =>
    rw [usedUncles]
    rcases List.mem_cons.mp hb with hcb | hrest
    · subst hcb
      exact List.mem_append_left _ (List.mem_map_of_mem _ hu)
    · exact List.mem_append_right _ (ih hrest)

theorem mem_usedUncles_ex {chain : List Block} {x : Nat} (hx : x ∈ usedUncles chain) :
    ∃ b ∈ chain, ∃ u ∈ b.uncles, u.hash = x := by
  induction chain with
  | nil => cases hx
  | cons c rest ih =>
    rw [usedUncles] at hx
    rcases List.mem_append.mp hx with h | h
    · obtain ⟨u, hu, hux⟩ := List.mem_map.mp h
      exact ⟨c, List.mem_cons_self c rest, u, hu, hux⟩
    · obtain ⟨b, hb, u, hu, hux⟩ := ih h
      exact ⟨b, List.mem_cons_of_mem c hb, u, hu, hux⟩

theorem usedUncles_eq_nil {l : List Block} (h : ∀ b ∈ l, b.uncles = []) :
    usedUncles l = [] := by
  induction l with
  | nil => rfl
  | cons b rest ih =>
    rw [usedUncles, h b (List.mem_cons_self b rest),
      ih (fun x hx => h x (List.mem_cons_of_mem b hx))]
    rfl

theorem usedUncles_append (l1 l2 : List Block) :
    usedUncles (l1 ++ l2) = usedUncles l1 ++ usedUncles l2 := by
  induction l1 with
  | nil => rfl
  | cons b rest ih =>
    rw [List.cons_append, usedUncles, usedUncles, ih, List.append_assoc]

theorem mem_recentBlocks {l : List Block} {b : Block} {i L : Nat} (h1 : i < l.length)
    (h2 : l.length ≤ i + L) (h3 : l[i] = b) : b ∈ recentBlocks l L := by
  rw [recentBlocks]
  have hlt : i - (l.length - L) < (l.drop (l.length - L)).length := by
    simp
    omega
  have heq : (l.drop (l.length - L))[i - (l.length - L)] = l[i] := by
    rw [List.getElem_drop]
    simp only [show (l.length - L) + (i - (l.length - L)) = i from by omega]
  rw [← h3, ← heq]
  exact List.getElem_mem hlt

theorem mem_forkChain {b : Block} {K : Nat} (hb : b ∈ forkChain K) :
    ∃ i, i < K ∧ b = forkBlock i := by
  obtain ⟨i, hi, rfl⟩ := List.mem_map.mp hb
  exact ⟨i, List.mem_range.mp hi, rfl⟩

theorem forkBlock_mem_forkChain {i K : Nat} (hi : i < K) : forkBlock i ∈ forkChain K :=
  List.mem_map_of_mem forkBlock (List.mem_range.mpr hi)

theorem mem_absorbChain {b : Block} {K H : Nat} (hb : b ∈ absorbChain K H) :
    ∃ j, j < H ∧ b = absorbBlock K j := by
  obtain ⟨j, hj, rfl⟩ := List.mem_map.mp hb
  exact ⟨j, List.mem_range.mp hj, rfl⟩

theorem forkChain_length (K : Nat) : (forkChain K).length = K := by
  simp [forkChain]

theorem absorbChain_length (K H : Nat) : (absorbChain K H).length = H := by
  simp [absorbChain]

theorem isAncestor_forkChain_ne (K x : Nat) (hx : x % 4 ≠ 3) :
    isAncestor x (forkChain K) = false := by
  rw [isAncestor, List.any_eq_false]
  intro b hb
  obtain ⟨i, _, rfl⟩ := mem_forkChain hb
  simp [forkBlock, mkHeader, forkHash]
  omega

theorem mem_drainedA_hash {H K : Nat} {b : Block} (hb : b ∈ drainedChainA H K) :
    ∃ m, b.header.hash = 4 * m + 3 := by
  rcases List.mem_append.mp hb with h | h
  · obtain ⟨i, _, rfl⟩ := mem_forkChain h
    exact ⟨i, rfl⟩
  · obtain ⟨j, _, rfl⟩ := mem_absorbChain h
    exact ⟨K + j, rfl⟩

theorem usedUncles_forkChain (K : Nat) : usedUncles (forkChain K) = [] := by
  apply usedUncles_eq_nil
  intro b hb
  obtain ⟨i, _, rfl⟩ := mem_forkChain hb
  rfl

theorem uncleConnects_false_of_disconnected {cand : Header} {chain : List Block} {L : Nat}
    (hpa : isAncestor cand.parent_hash chain = false)
    (hpu : ((usedUncles chain).any fun h => h == cand.parent_hash) = false) :
    uncleConnects cand chain L = false := by
  rw [uncleConnects, List.any_eq_false]
  intro b hb
  have hbchain : b ∈ chain := List.drop_subset _ _ hb
  rw [isAncestor, List.any_eq_false] at hpa
  have h1 := hpa b hbchain
  simp only [Bool.not_eq_true] at h1
  have h2 : (b.uncles.any fun u => u.hash == cand.parent_hash) = false := by
    rw [List.any_eq_false]
    intro u hu
    have hmem : u.hash ∈ usedUncles chain := hash_mem_usedUncles hbchain hu
    rw [List.any_eq_false] at hpu
    exact hpu u.hash hmem
  simp [h1, h2]

/- ### Claim C1 -/

/-- Claim C1 (amended): a candidate uncle that is not itself an ancestor of
the context, and whose parent is neither an ancestor of the context nor a
previously-used uncle anywhere in the context's lineage, is rejected by uncle
validation with kind `DescendantLimit` (the kind the code attaches to a
failed lineage check — the tests assert `DescendantLimit`, and no
`LineageMismatch` rejection exists in the observable behaviour), and is
never accepted. -/
theorem C1_lineage_reject (cand ctx : Header) (chain : List Block) (L : Nat)
    (hpa : isAncestor cand.parent_hash chain = false)
    (hpu : ((usedUncles chain).any fun h => h == cand.parent_hash) = false)
    (hself : isAncestor cand.hash chain = false) :
    validate_uncle cand ctx chain L = Except.error UncleRejection.DescendantLimit ∧
      validate_uncle cand ctx chain L ≠ Except.ok () := by
  have hconn : uncleConnects cand chain L = false :=
    uncleConnects_false_of_disconnected hpa hpu
  constructor
  · simp [validate_uncle, hself, hconn]
  · simp [validate_uncle, hself, hconn]

/-- Claim C1, witness: the amended theorem applied at a concrete disconnected
candidate (scenario-A data with `H = 2`, fork length 3, lookback 2). -/
theorem C1_lineage_reject_witness :
    validate_uncle (uncleA 2) (tipContext 3) (forkChain 3) 2 =
        Except.error UncleRejection.DescendantLimit ∧
      validate_uncle (uncleA 2) (tipContext 3) (forkChain 3) 2 ≠ Except.ok () :=
  C1_lineage_reject (uncleA 2) (tipContext 3) (forkChain 3) 2
    (by decide) (by decide) (by decide)

/-- Claim C1, counterexample to the claim as stated: a concrete candidate
whose parent is neither an ancestor of the context nor a used uncle of its
lineage is rejected with `DescendantLimit`, not with `LineageMismatch` as the
claim predicts. -/
theorem C1_lineage_mismatch_counterexample :
    isAncestor (uncleA 2).parent_hash (forkChain 3) = false ∧
      ((usedUncles (forkChain 3)).any fun h => h == (uncleA 2).parent_hash) = false ∧
      validate_uncle (uncleA 2) (tipContext 3) (forkChain 3) 2 =
        Except.error UncleRejection.DescendantLimit ∧
      validate_uncle (uncleA 2) (tipContext 3) (forkChain 3) 2 ≠
        Except.error UncleRejection.LineageMismatch := by
  decide

/- ### Claim C2: scenario A lemmas -/

theorem drainedChainA_length (H K : Nat) : (drainedChainA H K).length = K + H := by
  simp [drainedChainA, forkChain, absorbChain]

theorem drainedA_getElem (H K j : Nat) (hj : j < H)
    (hb : K + j < (drainedChainA H K).length) :
    (drainedChainA H K)[K + j] = absorbBlock K j := by
  simp only [drainedChainA]
  rw [List.getElem_append_right]
  · simp [forkChain_length, absorbChain]
  · rw [forkChain_length]
    omega

theorem connects_drainedA (H K L : Nat) (hH : 2 ≤ H) (hL : 2 ≤ L) :
    uncleConnects (uncleA H) (drainedChainA H K) L = true := by
  rw [uncleConnects, List.any_eq_true]
  have hb : (K + (H - 2)) < (drainedChainA H K).length := by
    rw [drainedChainA_length]; omega
  have hge : (drainedChainA H K)[K + (H - 2)] = absorbBlock K (H - 2) :=
    drainedA_getElem H K (H - 2) (by omega) hb
  have hmem : absorbBlock K (H - 2) ∈ recentBlocks (drainedChainA H K) L :=
    mem_recentBlocks hb (by rw [drainedChainA_length]; omega) hge
  refine ⟨absorbBlock K (H - 2), hmem, ?_⟩
  have hun : ((absorbBlock K (H - 2)).uncles.any fun u => u.hash == (uncleA H).parent_hash) = true := by
    simp [absorbBlock, oldHeader, mkHeader, uncleA, oldHash, beq_iff_eq]
    omega
  simp [hun]

theorem used_drainedA_ne_one (H K : Nat) :
    ((usedUncles (drainedChainA H K)).any fun h => h == (uncleA H).hash) = false := by
  rw [List.any_eq_false]
  intro x hx
  obtain ⟨b, hb, u, hu, hux⟩ := mem_usedUncles_ex hx
  rcases List.mem_append.mp hb with h | h
  · obtain ⟨i, _, rfl⟩ := mem_forkChain h
    exact absurd hu (by simp [forkBlock])
  · obtain ⟨j, _, rfl⟩ := mem_absorbChain h
    simp [absorbBlock] at hu
    subst hu
    simp only [oldHeader, oldHash, mkHeader] at hux
    simp [uncleA, mkHeader, ← hux, beq_iff_eq]

theorem isAncestor_drainedA_ne (H K x : Nat) (hx : x % 4 ≠ 3) :
    isAncestor x (drainedChainA H K) = false := by
  rw [isAncestor, List.any_eq_false]
  intro b hb
  obtain ⟨m, hm⟩ := mem_drainedA_hash hb
  simp [hm, beq_iff_eq]
  omega

theorem validate_uncleA_fork (H K L : Nat) :
    validate_uncle (uncleA H) (tipContext K) (forkChain K) L =
      Except.error UncleRejection.DescendantLimit := by
  have h1 : isAncestor (uncleA H).hash (forkChain K) = false := by
    have he : (uncleA H).hash = 1 := rfl
    rw [he]
    exact isAncestor_forkChain_ne K 1 (by omega)
  have h2 : uncleConnects (uncleA H) (forkChain K) L = false := by
    apply uncleConnects_false_of_disconnected
    · have he : (uncleA H).parent_hash = 4 * (H - 1) + 2 := rfl
      rw [he]
      exact isAncestor_forkChain_ne K (4 * (H - 1) + 2) (by omega)
    · rw [usedUncles_forkChain]
      rfl
  simp [validate_uncle, h1, h2]

theorem validate_uncleA_drained (H K L : Nat) (hH : 2 ≤ H) (hL : 2 ≤ L) :
    validate_uncle (uncleA H) (tipContextA2 H K) (drainedChainA H K) L = Except.ok () := by
  have h1 : isAncestor (uncleA H).hash (drainedChainA H K) = false := by
    have he : (uncleA H).hash = 1 := rfl
    rw [he]
    exact isAncestor_drainedA_ne H K 1 (by omega)
  have h2 := connects_drainedA H K L hH hL
  have h3 := used_drainedA_ne_one H K
  simp [validate_uncle, h1, h2, h3]

theorem known_stA1 (H K : Nat) (hK : 1 ≤ K) :
    knownHash (blockA1 H K).header.parent_hash (stA1 H K) = true := by
  rw [knownHash, List.any_eq_true]
  refine ⟨forkBlock (K - 1), ?_, ?_⟩
  · exact List.mem_append_left _ (forkBlock_mem_forkChain (by omega))
  · simp [forkBlock, mkHeader, blockA1, tipContext]

theorem known_stA2 (H K : Nat) (hH : 1 ≤ H) :
    knownHash (blockA2 H K).header.parent_hash (stA2 H K) = true := by
  rw [knownHash, List.any_eq_true]
  refine ⟨absorbBlock K (H - 1), ?_, ?_⟩
  · apply List.mem_append_left
    apply List.mem_append_right
    exact List.mem_map_of_mem _ (List.mem_range.mpr (by omega))
  · simp [absorbBlock, mkHeader, forkHash, blockA2, tipContextA2, beq_iff_eq]
    omega

theorem validateBlockUncles_err (b : Block) (chain : List Block) (L maxU : Nat)
    (r : UncleRejection)
    (h1 : firstUncleError b.uncles b.header chain L = some r) :
    validateBlockUncles b chain L maxU = Except.error r := by
  unfold validateBlockUncles
  rw [h1]

theorem validateBlockUncles_ok (b : Block) (chain : List Block) (L maxU : Nat)
    (h1 : firstUncleError b.uncles b.header chain L = none)
    (h2 : (b.header.epoch_index == 0 && !b.uncles.isEmpty) = false)
    (h3 : ¬ maxU < b.uncles.length)
    (h4 : hasDup (b.uncles.map (fun u => u.hash)) = false) :
    validateBlockUncles b chain L maxU = Except.ok () := by
  unfold validateBlockUncles
  rw [h1, h2]
  simp [h3, h4]

theorem submit_block_err (lookback maxUncles : Nat) (st : ChainState) (b : Block)
    (r : UncleRejection)
    (hkn : knownHash b.header.parent_hash st = true)
    (hv : validateBlockUncles b st.canonical lookback maxUncles = Except.error r) :
    submit_block lookback maxUncles st b = Except.error (ChainError.InvalidUncle r) := by
  unfold submit_block
  rw [if_pos hkn, hv]

theorem submit_block_accepts (lookback maxUncles : Nat) (st : ChainState) (b : Block)
    (hkn : knownHash b.header.parent_hash st = true)
    (hv : validateBlockUncles b st.canonical lookback maxUncles = Except.ok ()) :
    submit_block lookback maxUncles st b = Except.ok () := by
  unfold submit_block
  rw [if_pos hkn, hv]

/-- Claim C2 (confirmed): scenario A.  After a chain carrying `uncle`
(branching off at height `H-1`) has been displaced by a competing fork of
length `K ≥ H + lookback`, submitting a block on the fork tip that carries
`uncle` fails with `DescendantLimit`; once every displaced block has been
absorbed as an uncle (the backlog drained), submitting a block carrying the
same `uncle` succeeds. -/
theorem C2_scenarioA (H K L maxU : Nat) (hH : 2 ≤ H) (hK : H + L ≤ K) (hL : 2 ≤ L)
    (hmax : 1 ≤ maxU) :
    submit_block L maxU (stA1 H K) (blockA1 H K) =
        Except.error (ChainError.InvalidUncle UncleRejection.DescendantLimit) ∧
      submit_block L maxU (stA2 H K) (blockA2 H K) = Except.ok () := by
  constructor
  · have hkn := known_stA1 H K (by omega)
    have hval := validate_uncleA_fork H K L
    have hfirst : firstUncleError (blockA1 H K).uncles (blockA1 H K).header (stA1 H K).canonical L
        = some UncleRejection.DescendantLimit := by
      show firstUncleError [uncleA H] (tipContext K) (forkChain K) L = _
      simp [firstUncleError, hval]
    have hblk := validateBlockUncles_err (blockA1 H K) (stA1 H K).canonical L maxU
      UncleRejection.DescendantLimit hfirst
    exact submit_block_err L maxU (stA1 H K) (blockA1 H K) UncleRejection.DescendantLimit hkn hblk
  · have hkn := known_stA2 H K (by omega)
    have hval := validate_uncleA_drained H K L hH hL
    have hfirst : firstUncleError (blockA2 H K).uncles (blockA2 H K).header (stA2 H K).canonical L
        = none := by
      show firstUncleError [uncleA H] (tipContextA2 H K) (drainedChainA H K) L = _
      simp [firstUncleError, hval]
    have hml : ¬ maxU < (blockA2 H K).uncles.length := by
      show ¬ maxU < ([uncleA H] : List Header).length
      simp
      omega
    have hblk := validateBlockUncles_ok (blockA2 H K) (stA2 H K).canonical L maxU
      hfirst rfl hml rfl
    exact submit_block_accepts L maxU (stA2 H K) (blockA2 H K) hkn hblk

/-- Claim C2, witness: scenario A at `H = 2`, fork length `K = 4`,
lookback `L = 2`, uncle cap 1. -/
theorem C2_scenarioA_witness :
    submit_block 2 1 (stA1 2 4) (blockA1 2 4) =
        Except.error (ChainError.InvalidUncle UncleRejection.DescendantLimit) ∧
      submit_block 2 1 (stA2 2 4) (blockA2 2 4) = Except.ok () :=
  C2_scenarioA 2 4 2 1 (by decide) (by decide) (by decide) (by decide)

theorem drainedChainC_length (H K : Nat) : (drainedChainC H K).length = K + H + 1 := by
  simp [drainedChainC, forkChain, absorbChain]
  omega

theorem mem_drainedC_hash {H K : Nat} {b : Block} (hb : b ∈ drainedChainC H K) :
    ∃ m, b.header.hash = 4 * m + 3 := by
  rcases List.mem_append.mp hb with h | h
  · obtain ⟨i, _, rfl⟩ := mem_forkChain h
    exact ⟨i, rfl⟩
  · rcases List.mem_append.mp h with h2 | h2
    · obtain ⟨j, _, rfl⟩ := mem_absorbChain h2
      exact ⟨K + j, rfl⟩
    · rw [List.mem_singleton.mp h2]
      exact ⟨K + H, rfl⟩

theorem drainedC_getElem_last (H K : Nat)
    (hb : K + H < (drainedChainC H K).length) :
    (drainedChainC H K)[K + H] = parentAbsorbBlock H K := by
  simp only [drainedChainC]
  rw [List.getElem_append_right]
  · rw [List.getElem_append_right]
    · simp [forkChain_length, absorbChain_length]
    · rw [absorbChain_length]
      simp [forkChain_length]
  · rw [forkChain_length]
    omega

theorem validate_uncleChildC_fork (H K L : Nat) :
    validate_uncle (uncleChildC H) (tipContext K) (forkChain K) L =
      Except.error UncleRejection.DescendantLimit := by
  have h1 : isAncestor (uncleChildC H).hash (forkChain K) = false := by
    have he : (uncleChildC H).hash = 4 := rfl
    rw [he]
    exact isAncestor_forkChain_ne K 4 (by omega)
  have h2 : uncleConnects (uncleChildC H) (forkChain K) L = false := by
    apply uncleConnects_false_of_disconnected
    · have he : (uncleChildC H).parent_hash = 1 := rfl
      rw [he]
      exact isAncestor_forkChain_ne K 1 (by omega)
    · rw [usedUncles_forkChain]
      rfl
  simp [validate_uncle, h1, h2]

theorem connects_drainedC (H K L : Nat) (hL : 1 ≤ L) :
    uncleConnects (uncleChildC H) (drainedChainC H K) L = true := by
  rw [uncleConnects, List.any_eq_true]
  have hb : (K + H) < (drainedChainC H K).length := by
    rw [drainedChainC_length]; omega
  have hge : (drainedChainC H K)[K + H] = parentAbsorbBlock H K :=
    drainedC_getElem_last H K hb
  have hmem : parentAbsorbBlock H K ∈ recentBlocks (drainedChainC H K) L :=
    mem_recentBlocks hb (by rw [drainedChainC_length]; omega) hge
  refine ⟨parentAbsorbBlock H K, hmem, ?_⟩
  have hun : ((parentAbsorbBlock H K).uncles.any
      fun u => u.hash == (uncleChildC H).parent_hash) = true := by
    simp [parentAbsorbBlock, uncleChildC, mkHeader]
  simp [hun]

theorem used_drainedC_ne_four (H K : Nat) :
    ((usedUncles (drainedChainC H K)).any fun h => h == (uncleChildC H).hash) = false := by
  rw [List.any_eq_false]
  intro x hx
  obtain ⟨b, hb, u, hu, hux⟩ := mem_usedUncles_ex hx
  rcases List.mem_append.mp hb with h | h
  · obtain ⟨i, _, rfl⟩ := mem_forkChain h
    exact absurd hu (by simp [forkBlock])
  · rcases List.mem_append.mp h with h2 | h2
    · obtain ⟨j, _, rfl⟩ := mem_absorbChain h2
      simp [absorbBlock] at hu
      subst hu
      simp only [oldHeader, oldHash, mkHeader] at hux
      simp [uncleChildC, mkHeader, ← hux, beq_iff_eq]
      omega
    · rw [List.mem_singleton.mp h2] at hu
      simp [parentAbsorbBlock] at hu
      subst hu
      simp only [uncleA, mkHeader] at hux
      simp [uncleChildC, mkHeader, ← hux, beq_iff_eq]

theorem isAncestor_drainedC_ne (H K x : Nat) (hx : x % 4 ≠ 3) :
    isAncestor x (drainedChainC H K) = false := by
  rw [isAncestor, List.any_eq_false]
  intro b hb
  obtain ⟨m, hm⟩ := mem_drainedC_hash hb
  simp [hm, beq_iff_eq]
  omega

theorem validate_uncleChildC_drained (H K L : Nat) (hL : 1 ≤ L) :
    validate_uncle (uncleChildC H) (tipContextC2 H K) (drainedChainC H K) L = Except.ok () := by
  have h1 : isAncestor (uncleChildC H).hash (drainedChainC H K) = false := by
    have he : (uncleChildC H).hash = 4 := rfl
    rw [he]
    exact isAncestor_drainedC_ne H K 4 (by omega)
  have h2 := connects_drainedC H K L hL
  have h3 := used_drainedC_ne_four H K
  simp [validate_uncle, h1, h2, h3]

theorem known_stC1 (H K : Nat) (hK : 1 ≤ K) :
    knownHash (blockC1 H K).header.parent_hash (stC1 H K) = true := by
  rw [knownHash, List.any_eq_true]
  refine ⟨forkBlock (K - 1), ?_, ?_⟩
  · exact List.mem_append_left _ (forkBlock_mem_forkChain (by omega))
  · simp [forkBlock, mkHeader, blockC1, tipContext]

theorem known_stC2 (H K : Nat) :
    knownHash (blockC2 H K).header.parent_hash (stC2 H K) = true := by
  rw [knownHash, List.any_eq_true]
  refine ⟨parentAbsorbBlock H K, ?_, ?_⟩
  · apply List.mem_append_left
    apply List.mem_append_right
    apply List.mem_append_right
    simp
  · simp [parentAbsorbBlock, mkHeader, blockC2, tipContextC2]

/-- Claim C3 (confirmed): a candidate whose parent was included as an uncle
only on a side fork — the parent is not an ancestor of the context, and the
context's own ancestry embeds no uncle with the parent's digest, although a
side-fork block does — is rejected (clause (b) of the uncle rule counts only
uncles embedded in the context's own ancestry); after the fork blocks,
including the parent, are absorbed as uncles into the canonical chain, the
same candidate is accepted. -/
theorem C3_fork_uncle_inheritance (H K L maxU : Nat) (hH : 2 ≤ H) (hK : H + 1 ≤ K)
    (hL : 1 ≤ L) (hmax : 1 ≤ maxU) :
    (uncleChildC H).parent_hash ∈ usedUncles (stC1 H K).side ∧
      ((usedUncles (stC1 H K).canonical).any
        fun h => h == (uncleChildC H).parent_hash) = false ∧
      submit_block L maxU (stC1 H K) (blockC1 H K) =
        Except.error (ChainError.InvalidUncle UncleRejection.DescendantLimit) ∧
      submit_block L maxU (stC2 H K) (blockC2 H K) = Except.ok () := by
  refine ⟨?_, ?_, ?_, ?_⟩
  · have hmem : sideEmbedBlock H ∈ (stC1 H K).side := by
      apply List.mem_append_right
      simp
    exact hash_mem_usedUncles hmem (by simp [sideEmbedBlock])
  · show ((usedUncles (forkChain K)).any fun h => h == (uncleChildC H).parent_hash) = false
    rw [usedUncles_forkChain]
    rfl
  · have hkn := known_stC1 H K (by omega)
    have hval := validate_uncleChildC_fork H K L
    have hfirst : firstUncleError (blockC1 H K).uncles (blockC1 H K).header (stC1 H K).canonical L
        = some UncleRejection.DescendantLimit := by
      show firstUncleError [uncleChildC H] (tipContext K) (forkChain K) L = _
      simp [firstUncleError, hval]
    have hblk := validateBlockUncles_err (blockC1 H K) (stC1 H K).canonical L maxU
      UncleRejection.DescendantLimit hfirst
    exact submit_block_err L maxU (stC1 H K) (blockC1 H K) UncleRejection.DescendantLimit hkn hblk
  · have hkn := known_stC2 H K
    have hval := validate_uncleChildC_drained H K L hL
    have hfirst : firstUncleError (blockC2 H K).uncles (blockC2 H K).header (stC2 H K).canonical L
        = none := by
      show firstUncleError [uncleChildC H] (tipContextC2 H K) (drainedChainC H K) L = _
      simp [firstUncleError, hval]
    have hml : ¬ maxU < (blockC2 H K).uncles.length := by
      show ¬ maxU < ([uncleChildC H] : List Header).length
      simp
      omega
    have hblk := validateBlockUncles_ok (blockC2 H K) (stC2 H K).canonical L maxU
      hfirst rfl hml rfl
    exact submit_block_accepts L maxU (stC2 H K) (blockC2 H K) hkn hblk

/-- Claim C3, witness: scenario B at `H = 2`, fork length `K = 4`,
lookback `L = 2`, uncle cap 1. -/
theorem C3_fork_uncle_inheritance_witness :
    (uncleChildC 2).parent_hash ∈ usedUncles (stC1 2 4).side ∧
      ((usedUncles (stC1 2 4).canonical).any
        fun h => h == (uncleChildC 2).parent_hash) = false ∧
      submit_block 2 1 (stC1 2 4) (blockC1 2 4) =
        Except.error (ChainError.InvalidUncle UncleRejection.DescendantLimit) ∧
      submit_block 2 1 (stC2 2 4) (blockC2 2 4) = Except.ok () :=
  C3_fork_uncle_inheritance 2 4 2 1 (by decide) (by decide) (by decide) (by decide)

theorem simpleChain_length (E n : Nat) : (simpleChain E n).length = n := by
  simp [simpleChain]

theorem mem_simpleChain {E n : Nat} {b : Block} (hb : b ∈ simpleChain E n) :
    ∃ i, i < n ∧ b = simpleBlock E i := by
  obtain ⟨i, hi, rfl⟩ := List.mem_map.mp hb
  exact ⟨i, List.mem_range.mp hi, rfl⟩

theorem simpleChain_getElem (E n i : Nat) (hi : i < n)
    (hb : i < (simpleChain E n).length) :
    (simpleChain E n)[i] = simpleBlock E i := by
  simp [simpleChain]

theorem usedUncles_simpleChain (E n : Nat) : usedUncles (simpleChain E n) = [] := by
  apply usedUncles_eq_nil
  intro b hb
  obtain ⟨i, _, rfl⟩ := mem_simpleChain hb
  rfl

theorem isAncestor_simpleChain_one (E n : Nat) :
    isAncestor 1 (simpleChain E n) = false := by
  rw [isAncestor, List.any_eq_false]
  intro b hb
  obtain ⟨i, _, rfl⟩ := mem_simpleChain hb
  simp [simpleBlock, mkHeader]

theorem connects_uncleB (E n L : Nat) (hn : 3 ≤ n) (hL : 2 ≤ L) :
    uncleConnects (uncleB E n) (simpleChain E (n - 1)) L = true := by
  rw [uncleConnects, List.any_eq_true]
  have hb : (n - 3) < (simpleChain E (n - 1)).length := by
    rw [simpleChain_length]; omega
  have hge : (simpleChain E (n - 1))[n - 3] = simpleBlock E (n - 3) :=
    simpleChain_getElem E (n - 1) (n - 3) (by omega) hb
  have hmem : simpleBlock E (n - 3) ∈ recentBlocks (simpleChain E (n - 1)) L :=
    mem_recentBlocks hb (by rw [simpleChain_length]; omega) hge
  refine ⟨simpleBlock E (n - 3), hmem, ?_⟩
  simp [simpleBlock, mkHeader, uncleB]

theorem validate_uncleB (E n L : Nat) (hn : 3 ≤ n) (hL : 2 ≤ L) :
    validate_uncle (uncleB E n) (ctxB1 E n) (simpleChain E (n - 1)) L = Except.ok () := by
  have h1 : isAncestor (uncleB E n).hash (simpleChain E (n - 1)) = false := by
    have he : (uncleB E n).hash = 1 := rfl
    rw [he]
    exact isAncestor_simpleChain_one E (n - 1)
  have h2 := connects_uncleB E n L hn hL
  have h3 : ((usedUncles (simpleChain E (n - 1))).any fun h => h == (uncleB E n).hash) = false := by
    rw [usedUncles_simpleChain]
    rfl
  simp [validate_uncle, h1, h2, h3]

theorem epoch_end_index (E c : Nat) (hE : 2 ≤ E) (hc : 1 ≤ c) :
    (c * E - 1) % E = E - 1 := by
  have h1 : (c - 1) * E = c * E - E := by rw [Nat.sub_one_mul]
  have h2 : E ≤ c * E := Nat.le_mul_of_pos_left E (by omega)
  have h3 : c * E - 1 = (E - 1) + (c - 1) * E := by omega
  rw [h3, Nat.add_mul_mod_self_right]
  exact Nat.mod_eq_of_lt (by omega)

/-- Claim C4 (confirmed): with a valid uncle submitted at height
`next_epoch_start - 2` as the sole template candidate, the template built for
the last height of the epoch (`next_epoch_start - 1`) packs exactly 1 uncle,
and the template built for the epoch-starting height (`next_epoch_start`,
after the preceding block consumed no uncles) packs exactly 0 uncles even
though the candidate is still pending. -/
theorem C4_epoch_starting_templates (E c L maxU : Nat) (hE : 2 ≤ E) (hc : 1 ≤ c)
    (hn : 3 ≤ c * E) (hL : 2 ≤ L) (hmax : 1 ≤ maxU) :
    (assembleUncles [uncleB E (c * E)] (ctxB1 E (c * E)) (simpleChain E (c * E - 1)) L
        maxU).length = 1 ∧
      (assembleUncles [uncleB E (c * E)] (ctxB2 E (c * E)) (simpleChain E (c * E)) L
        maxU).length = 0 := by
  constructor
  · have hidx : ((ctxB1 E (c * E)).epoch_index == 0) = false := by
      show ((c * E - 1) % E == 0) = false
      rw [epoch_end_index E c hE hc]
      simp [beq_iff_eq]
      omega
    have hacc : acceptsUncle (uncleB E (c * E)) (ctxB1 E (c * E)) (simpleChain E (c * E - 1)) L
        = true := by
      rw [acceptsUncle, validate_uncleB E (c * E) L hn hL]
    obtain ⟨m, rfl⟩ : ∃ m, maxU = m + 1 := ⟨maxU - 1, by omega⟩
    rw [assembleUncles, hidx]
    simp [hacc]
  · have hidx : ((ctxB2 E (c * E)).epoch_index == 0) = true := by
      show ((c * E) % E == 0) = true
      simp [Nat.mul_mod_left]
    rw [assembleUncles, hidx]
    simp

/-- Claim C4, witness: epoch length 3, first boundary (`next_epoch_start = 3`),
lookback 2, uncle cap 1. -/
theorem C4_epoch_starting_templates_witness :
    (assembleUncles [uncleB 3 3] (ctxB1 3 3) (simpleChain 3 2) 2 1).length = 1 ∧
      (assembleUncles [uncleB 3 3] (ctxB2 3 3) (simpleChain 3 3) 2 1).length = 0 :=
  C4_epoch_starting_templates 3 1 2 1 (by decide) (by decide) (by decide) (by decide) (by decide)

/- ### Claim C5: error messages name the rejection kind -/

/-- Claim C5 (confirmed): every error returned by `submit_block` carries a
message containing the name of its specific rejection kind as a substring
(e.g. `DescendantLimit` for a descendant-limit violation), never a generic
failure. -/
theorem C5_error_message_kind (L maxU : Nat) (st : ChainState) (b : Block) (e : ChainError)
    (h : submit_block L maxU st b = Except.error e) :
    strContains (ChainError.message e) (ChainError.kindName e) = true := by
  cases e with
  | UnknownParent => decide
  | InvalidUncle r => cases r <;> decide
  | Invalid => decide

/-- Claim C5, witness: a concrete rejected submission (scenario A data at
`H = 3`, `K = 6`) whose message contains `DescendantLimit`. -/
theorem C5_error_message_kind_witness :
    strContains (ChainError.message (ChainError.InvalidUncle UncleRejection.DescendantLimit))
      (ChainError.kindName (ChainError.InvalidUncle UncleRejection.DescendantLimit)) = true :=
  C5_error_message_kind 2 1 (stA1 3 6) (blockA1 3 6)
    (ChainError.InvalidUncle UncleRejection.DescendantLimit) (by decide)

/-- Claim C6 (confirmed): `send_transaction` returns the content hash of the
transaction whatever the pool-admission callback does — the pool outcome is
recorded for logging but never propagated as a failure. -/
theorem C6_send_transaction_hash (env : NodeEnv) (p : Transaction → Except PoolError Unit)
    (tx : Transaction) :
    (send_transaction { env with add_to_memory_pool := p } tx).result =
      Except.ok (env.tx_hash tx.content) := rfl

/-- Claim C7 (confirmed): `get_block` returns `Ok(None)` exactly when the
hash is unknown, and on a hit every returned transaction carries its own
content hash in its `hash` field. -/
theorem C7_get_block_tx_hashes (env : NodeEnv) (h : Nat) :
    (get_block env h = Except.ok none ↔ env.chain.block h = none) ∧
      (∀ b, env.chain.block h = some b →
        get_block env h = Except.ok (some
            { b with transactions := b.transactions.map (attachTxHash env.tx_hash) }) ∧
          (({ b with transactions := b.transactions.map (attachTxHash env.tx_hash) } :
              RpcBlock).transactions.all
            (fun t => t.hash == some (env.tx_hash t.content))) = true) := by
  constructor
  · constructor
    · intro hgb
      cases hcb : env.chain.block h with
      | none => rfl
      | some b => simp [get_block, hcb] at hgb
    · intro hn
      simp [get_block, hn]
  · intro b hb
    constructor
    · simp [get_block, hb]
    · rw [List.all_eq_true]
      intro t ht
      obtain ⟨t0, ht0, rfl⟩ := List.mem_map.mp ht
      simp [attachTxHash, Transaction.content]

/-- Claim C7, witness: the theorem at the concrete environment, hash 10
(a hit with one transaction). -/
theorem C7_get_block_tx_hashes_witness :
    (get_block cEnv 10 = Except.ok none ↔ cEnv.chain.block 10 = none) ∧
      (∀ b, cEnv.chain.block 10 = some b →
        get_block cEnv 10 = Except.ok (some
            { b with transactions := b.transactions.map (attachTxHash cEnv.tx_hash) }) ∧
          (({ b with transactions := b.transactions.map (attachTxHash cEnv.tx_hash) } :
              RpcBlock).transactions.all
            (fun t => t.hash == some (cEnv.tx_hash t.content))) = true) :=
  C7_get_block_tx_hashes cEnv 10

/-- Claim C8 (confirmed): `send_transaction` attempts a relay to every
connected session — whatever the pool or any single send does — and the
per-peer outcomes affect neither the other sends nor the returned result. -/
theorem C8_relay_unconditional (env : NodeEnv) (tx : Transaction) :
    (send_transaction env tx).relay_attempts.map Prod.fst = env.sessions ∧
      (send_transaction env tx).result = Except.ok (env.tx_hash tx.content) := by
  constructor
  · show (env.sessions.map (fun peer_id => (peer_id, env.send_ok peer_id))).map Prod.fst
        = env.sessions
    simp [List.map_map, Function.comp_def]
  · rfl

/-- Claim C9 (confirmed): every RPC handler returns `Ok` at the RPC result
level, and lookup misses are encoded as `Ok(None)`, never as an RPC error. -/
theorem C9_handlers_always_ok (env : NodeEnv) (tx : Transaction) (h n : Nat) :
    exceptOk (send_transaction env tx).result = true ∧
      exceptOk (get_block env h) = true ∧
      exceptOk (get_transaction env h) = true ∧
      exceptOk (get_block_hash env n) = true ∧
      exceptOk (get_tip_header env) = true ∧
      (env.chain.block h = none → get_block env h = Except.ok none) ∧
      (env.chain.get_transaction h = none → get_transaction env h = Except.ok none) ∧
      (env.chain.block_hash n = none → get_block_hash env n = Except.ok none) := by
  refine ⟨rfl, rfl, rfl, rfl, rfl, ?_, ?_, ?_⟩
  · intro hm
    simp [get_block, hm]
  · intro hm
    simp [get_transaction, hm]
  · intro hm
    simp [get_block_hash, hm]

/-- Claim C9, witness: the theorem at the concrete environment (whose pool
always rejects), transaction `cTx`, hash 10, height 1. -/
theorem C9_handlers_always_ok_witness :
    exceptOk (send_transaction cEnv cTx).result = true ∧
      exceptOk (get_block cEnv 10) = true ∧
      exceptOk (get_transaction cEnv 10) = true ∧
      exceptOk (get_block_hash cEnv 1) = true ∧
      exceptOk (get_tip_header cEnv) = true ∧
      (cEnv.chain.block 10 = none → get_block cEnv 10 = Except.ok none) ∧
      (cEnv.chain.get_transaction 10 = none → get_transaction cEnv 10 = Except.ok none) ∧
      (cEnv.chain.block_hash 1 = none → get_block_hash cEnv 1 = Except.ok none) :=
  C9_handlers_always_ok cEnv cTx 10 1

/-- Claim C10 (confirmed): `get_block` changes only the `hash` field of each
transaction — the header, the uncle list, and the transactions' order and
content fields come back exactly as the chain stored them. -/
theorem C10_get_block_frame (env : NodeEnv) (h : Nat) (b : RpcBlock)
    (hb : env.chain.block h = some b) :
    ∃ b', get_block env h = Except.ok (some b') ∧
      b'.header = b.header ∧
      b'.uncles = b.uncles ∧
      b'.transactions.map Transaction.content = b.transactions.map Transaction.content := by
  refine ⟨{ b with transactions := b.transactions.map (attachTxHash env.tx_hash) },
    ?_, rfl, rfl, ?_⟩
  · simp [get_block, hb]
  · show (b.transactions.map (attachTxHash env.tx_hash)).map Transaction.content = _
    rw [List.map_map]
    simp [attachTxHash, Transaction.content, Function.comp]

/-- Claim C10, witness: the theorem at the concrete environment, hash 10. -/
theorem C10_get_block_frame_witness :
    ∃ b', get_block cEnv 10 = Except.ok (some b') ∧
      b'.header = cBlk.header ∧
      b'.uncles = cBlk.uncles ∧
      b'.transactions.map Transaction.content = cBlk.transactions.map Transaction.content :=
  C10_get_block_frame cEnv 10 cBlk (by decide)
